import Mathlib

/-!
Verification of the baton-docusign connector core: the pagination-cursor
protocol and the grant-derivation engine.  Definitions are shallow
embeddings of the Go source (`pkg/connector/permissions.go`,
`pkg/connector/users.go`, `pkg/client/helper.go`, `pkg/client/client.go`
and their sibling revisions); Go strings become `String`, Go `int`
becomes `Int`, Go maps become association lists, fallible Go functions
return `Except String`.
-/

namespace DocuSign

/-- Model of Go `strings.ToLower` (per-rune simple lowercase mapping),
restricted to the ASCII mapping `Char.toLower`; all strings compared
against by the connector (`"true"`, `"admin"`, `"share"`, status names)
are ASCII. -/
def goToLower (s : String) : String :=
  ⟨s.data.map Char.toLower⟩

/-- Model of a dynamically typed JSON value (`interface\x7b\x7d` holding the
result of `json.Unmarshal`): Go yields `string`, `bool`, `float64`,
`map[string]interface\x7b\x7d`, `[]interface\x7b\x7d` or `nil`.  The numeric
payload is modelled as `Int`; no connector code inspects it (the type
switch in `checkPermissionValue` sends every number to its default arm). -/
inductive JValue where
  | str (s : String)
  | bool (b : Bool)
  | num (x : Int)
  | null
  | obj (fields : List (String × JValue))
  | arr (elems : List JValue)

/-- Normalized settings: the `map[string]interface\x7b\x7d` produced by the
JSON round-trip of a user's `UserSettings`, as an association list with
distinct keys. -/
def SettingsMap := List (String × JValue)

/-- Lookup in a normalized settings map (Go map indexing `settingsMap[field]`). -/
def SettingsMap.find (m : SettingsMap) (k : String) : Option JValue :=
  match m with
  | [] => none
  | (k', v) :: rest => if k' = k then some v else SettingsMap.find rest k

/-- Accepted spellings of an "on" value (`validValues` in
`pkg/connector/permissions.go`, `validPermissionValues` in the sibling
revision). -/
def validPermissionValues : List String :=
  ["true", "admin", "share"]

/-- Embedding of `checkPermissionValue` (identical in all three source
copies): a string is lower-cased and accepted iff it is in the valid
set, with the lower-cased string as access level; a boolean is accepted
iff true (access level `"true"`, or `"false"` when rejected); every
other value is rejected with access level `""`. -/
def checkPermissionValue (value : JValue) : Bool × String :=
  match value with
  | .str v =>
    let lowerVal := goToLower v
    (validPermissionValues.contains lowerVal, lowerVal)
  | .bool v => if v then (true, "true") else (false, "false")
  | _ => (false, "")

/-- Follows the spec's words (§4.2 value-acceptance predicate), for
comparison with the source's `checkPermissionValue`: acceptance
decision. -/
def specAccepts (value : JValue) : Bool :=
  match value with
  | .str s =>
    decide (goToLower s = "true") || decide (goToLower s = "admin")
      || decide (goToLower s = "share")
  | .bool b => b
  | _ => false

/-- Follows the spec's words (§4.2 value-acceptance predicate), for
comparison with the source's `checkPermissionValue`: normalized access
level. -/
def specAccessLevel (value : JValue) : String :=
  match value with
  | .str s => goToLower s
  | .bool b => if b then "true" else "false"
  | _ => ""

/-- Catalog entry of a DocuSign permission (`permissionDefinition` in
`pkg/connector/permissions.go`; the `Purpose` field carried by one
revision is a constant and is omitted). -/
structure PermissionDefinition where
  id : String
  displayName : String
  description : String

/-- Embedding of `getPermissionDefinitions` from
`pkg/connector/permissions.go`: the fixed permission catalog. -/
def getPermissionDefinitions : List PermissionDefinition :=
  [⟨"adminOnly", "Admin Only Actions", "Indicates some actions are exclusive for admins"⟩,
   ⟨"canManageAccount", "Manage Account", "Can manage account settings"⟩,
   ⟨"canManageTemplates", "Manage Templates", "Can manage shared templates"⟩,
   ⟨"canEditSharedAddressbook", "Edit Shared Addressbook", "Can edit shared address book"⟩,
   ⟨"canManageOrganization", "Manage Organization", "Can manage organization settings"⟩,
   ⟨"canManageDistributor", "Manage Distributor", "Can manage distributor settings"⟩,
   ⟨"canSendEnvelope", "Send Envelope", "Can send envelopes (documents for signing)"⟩,
   ⟨"canSignEnvelope", "Sign Envelope", "Can sign envelopes"⟩,
   ⟨"allowSendOnBehalfOf", "Send On Behalf Of", "Can send envelopes on behalf of others"⟩,
   ⟨"bulkSend", "Bulk Send", "Can send envelopes in bulk"⟩,
   ⟨"canSendAPIRequests", "Send API Requests", "Can make API requests"⟩,
   ⟨"enableSequentialSigningUI", "Sequential Signing UI", "Can use sequential signing UI"⟩,
   ⟨"enableDSPro", "DS Pro Features", "Access to DocuSign Pro features"⟩,
   ⟨"canUseScratchpad", "Use Scratchpad", "Can use scratchpad feature"⟩,
   ⟨"canCreateWorkspaces", "Create Workspaces", "Can create collaborative workspaces"⟩,
   ⟨"enableTransactionPoint", "Transaction Point", "Can use transaction point feature"⟩,
   ⟨"powerFormMode", "PowerForm Admin", "Administrative control over PowerForms"⟩,
   ⟨"apiCanExportAC", "Export Audit Certificates", "Can export audit certificates via API"⟩,
   ⟨"enableVaulting", "Vaulting Access", "Can use long-term storage (Vaulting)"⟩,
   ⟨"canUseSmartContracts", "Smart Contracts", "Can use smart contracts"⟩]

/-- Embedding of the field-to-permission table: `fieldToPermissionMappings`
in the `part_009` revision (a slice, in source order) and
`fieldToPermissionID` in `pkg/connector/permissions.go` (a map literal
with the same 21 entries; Go map iteration order is unspecified, and no
property proved below depends on the order). -/
def fieldToPermissionMappings : List (String × String) :=
  [("isAdmin", "adminOnly"),
   ("adminOnly", "adminOnly"),
   ("canManageAccount", "canManageAccount"),
   ("canManageTemplates", "canManageTemplates"),
   ("canEditSharedAddressbook", "canEditSharedAddressbook"),
   ("canManageOrganization", "canManageOrganization"),
   ("canManageDistributor", "canManageDistributor"),
   ("canSendEnvelope", "canSendEnvelope"),
   ("canSignEnvelope", "canSignEnvelope"),
   ("allowSendOnBehalfOf", "allowSendOnBehalfOf"),
   ("bulkSend", "bulkSend"),
   ("canSendAPIRequests", "canSendAPIRequests"),
   ("enableSequentialSigningUI", "enableSequentialSigningUI"),
   ("enableDSPro", "enableDSPro"),
   ("canUseScratchpad", "canUseScratchpad"),
   ("canCreateWorkspaces", "canCreateWorkspaces"),
   ("enableTransactionPoint", "enableTransactionPoint"),
   ("powerFormMode", "powerFormMode"),
   ("apiCanExportAC", "apiCanExportAC"),
   ("enableVaulting", "enableVaulting"),
   ("canUseSmartContracts", "canUseSmartContracts")]

/-- A derived grant, keeping the fields the claims inspect: the
entitlement id (= permission id), the subject user id, and the
`access_level` metadata entry.  The constant metadata (`source`,
`profile`, `username`) carried by `grant.NewGrant` is omitted. -/
structure Grant where
  entitlementId : String
  userId : String
  accessLevel : String
deriving DecidableEq

/-- Modelled from the spec (§4.3 Settings Normalizer): the input of the
`json.Marshal`/`json.Unmarshal` round-trip applied to a user's
`UserSettings`.  `ser` carries the flat field map the round-trip
produces; `unser` models a value whose serialization fails (the
defensive error path; the fixed settings schema never produces it). -/
inductive SettingsVal where
  | ser (fields : List (String × JValue))
  | unser

/-- Provider user-detail record (`client.UserDetail`), restricted to the
fields the grant derivation reads. -/
structure UserDetail where
  userID : String
  userName : String
  permissionProfileName : String
  userSettings : SettingsVal

/-- Embedding of `parseUserSettings` (`part_009`; inlined at the top of
`processUserPermissions` in `pkg/connector/permissions.go` with message
"error marshaling user settings"): JSON round-trip of the settings into
a flat map, failing on non-serializable input. -/
def parseUserSettings : SettingsVal → Except String SettingsMap
  | .ser fields => .ok fields
  | .unser => .error "failed to marshal user settings"

/-- Inner loop of `processUserPermissions` for one catalog entry: scan
the field table for entries mapped to `permId`, and emit a grant for the
first field that is present with an accepted value (`break` in the
source). -/
def firstGrantFor (permId : String) (mappings : List (String × String))
    (m : SettingsMap) (userId : String) : Option Grant :=
  match mappings with
  | [] => none
  | (field, pid) :: rest =>
    if pid = permId then
      match m.find field with
      | some value =>
        match checkPermissionValue value with
        | (true, accessLevel) => some ⟨permId, userId, accessLevel⟩
        | (false, _) => firstGrantFor permId rest m userId
      | none => firstGrantFor permId rest m userId
    else firstGrantFor permId rest m userId

/-- Grant loop of `processUserPermissions`
(`pkg/connector/permissions.go`): for each catalog entry, at most one
grant is appended — the first satisfied field mapping wins. -/
def processPermissionLoop (m : SettingsMap) (userId : String) : List Grant :=
  getPermissionDefinitions.filterMap
    (fun perm => firstGrantFor perm.id fieldToPermissionMappings m userId)

/-- Embedding of `processUserPermissions`
(`pkg/connector/permissions.go`): normalize the settings, then derive
grants via the catalog-driven loop.  The permission/user resource
arguments are the constant singleton resource and the user's resource
and are represented by the user id carried in each grant. -/
def processUserPermissions (user : UserDetail) : Except String (List Grant) :=
  match parseUserSettings user.userSettings with
  | .error e => .error e
  | .ok m => .ok (processPermissionLoop m user.userID)

/-- Embedding of `createUserGrants` (`part_009` and the revision embedded
in `permissions_test.go`): scan the field table once and emit one grant
per present-and-accepted field — with no per-permission-id
deduplication. -/
def createUserGrants (user : UserDetail) : Except String (List Grant) :=
  match parseUserSettings user.userSettings with
  | .error e => .error e
  | .ok m =>
    .ok (fieldToPermissionMappings.filterMap (fun mp =>
      match m.find mp.1 with
      | some value =>
        match checkPermissionValue value with
        | (true, accessLevel) => some ⟨mp.2, user.userID, accessLevel⟩
        | (false, _) => none
      | none => none))

/-- Embedding of the user loop of `permissionBuilder.Grants` (identical
control flow in `pkg/connector/permissions.go` and `part_009`): derive
each user's grants in order, returning immediately with the error when a
user's derivation fails, otherwise appending. -/
def permissionGrants : List UserDetail → Except String (List Grant)
  | [] => .ok []
  | u :: rest =>
    match processUserPermissions u with
    | .error e => .error e
    | .ok gs =>
      match permissionGrants rest with
      | .error e => .error e
      | .ok more => .ok (gs ++ more)

/-- Concrete user whose normalized settings contain both aliases of the
`adminOnly` permission (spec §8, alias collapsing). -/
def aliasUser : UserDetail :=
  ⟨"u1", "alias-user", "profile-1", .ser [("isAdmin", .str "true"), ("adminOnly", .str "true")]⟩

/-- Concrete user whose settings cannot be serialized. -/
def badUser : UserDetail :=
  ⟨"u0", "bad-user", "profile-0", .unser⟩

/-- ASCII digit character for a digit value below ten. -/
def digitChar (d : Nat) : Char :=
  Char.ofNat (48 + d)

/-- Numeric value of an ASCII digit character. -/
def digitVal (c : Char) : Nat :=
  c.toNat - 48

/-- Decimal digit characters of `n`, most significant first; structured
on a fuel argument (call with `fuel ≥ n`) so that concrete tokens
evaluate inside the kernel.  Yields `[]` for `n = 0`. -/
def natChars (fuel n : Nat) : List Char :=
  match fuel, n with
  | _, 0 => []
  | 0, _ => []
  | fuel + 1, n => natChars fuel (n / 10) ++ [digitChar (n % 10)]

/-- Decimal rendering of a natural number (`fmt` `%d` on a nonnegative
value), with `"0"` for zero. -/
def natRepr (n : Nat) : List Char :=
  if n = 0 then ['0'] else natChars n n

/-- Numeric value of a big-endian list of decimal digit characters. -/
def digitsVal (cs : List Char) : Nat :=
  cs.foldl (fun a c => 10 * a + digitVal c) 0

/-- Splits a character list into its longest digit prefix and the rest. -/
def takeDigits (cs : List Char) : List Char × List Char :=
  match cs with
  | [] => ([], [])
  | c :: rest =>
    if c.isDigit then
      let p := takeDigits rest
      (c :: p.1, p.2)
    else ([], c :: rest)

/-- Length-prefixed encoding of one string: decimal length, `':'`, then
the raw characters.  Injective building block of the modelled cursor
wire format. -/
def encStr (s : String) : List Char :=
  natRepr s.data.length ++ ':' :: s.data

/-- Parses one length-prefixed string, returning it and the remaining
input; fails on any input not produced by `encStr`. -/
def parseStr (cs : List Char) : Option (String × List Char) :=
  if (takeDigits cs).1 = [] then none
  else
    match (takeDigits cs).2 with
    | ':' :: rest =>
      if digitsVal (takeDigits cs).1 ≤ rest.length then
        some (⟨rest.take (digitsVal (takeDigits cs).1)⟩,
          rest.drop (digitsVal (takeDigits cs).1))
      else none
    | _ => none

/-- One stacked page position (baton-sdk `pagination.PageState`): the
resource-type scope, the resource id within it, and the provider cursor
for the next page at this level. -/
structure PageState where
  resourceTypeId : String
  resourceId : String
  token : String
deriving DecidableEq

/-- Modelled from the spec (§3 CursorStack; the baton-sdk
`pagination.Bag` is not part of this repository): an ordered stack of
page positions, the active (most recently pushed) position first. -/
def Bag := List PageState

/-- Active position of the stack (baton-sdk `Bag.Current`, `nil` on an
empty bag). -/
def Bag.current (b : Bag) : Option PageState :=
  match b with
  | [] => none
  | s :: _ => some s

/-- Pushes a new position, which becomes the active one (baton-sdk
`Bag.Push`). -/
def Bag.push (b : Bag) (s : PageState) : Bag :=
  s :: b

/-- Provider cursor of the active position, or `""` on an empty bag
(baton-sdk `Bag.PageToken`). -/
def Bag.pageToken (b : Bag) : String :=
  match b with
  | [] => ""
  | s :: _ => s.token

/-- Overwrites the active position's provider cursor (the mutation step
of baton-sdk `Bag.NextToken`). -/
def Bag.withCursor (b : Bag) (c : String) : Bag :=
  match b with
  | [] => []
  | s :: rest => ⟨s.resourceTypeId, s.resourceId, c⟩ :: rest

/-- Modelled from the spec (§6 cursor wire format: base64 of a canonical
JSON encoding of the stack; base64 and `encoding/json` are external to
this repository): an injective, canonical text encoding of the stack —
each position as three length-prefixed strings, concatenated in stack
order. -/
def marshalChars (b : List PageState) : List Char :=
  match b with
  | [] => []
  | s :: rest => encStr s.resourceTypeId ++ encStr s.resourceId ++ encStr s.token ++ marshalChars rest

/-- Serializes a cursor stack to its opaque token string (baton-sdk
`Bag.Marshal`; the empty bag yields `""`). -/
def Bag.marshal (b : Bag) : String :=
  ⟨marshalChars b⟩

/-- Advances the active position to the provider cursor `c` and
re-serializes the whole stack (baton-sdk `Bag.NextToken`, as invoked by
`userBuilder.List` for a non-empty provider cursor). -/
def Bag.nextToken (b : Bag) (c : String) : String :=
  Bag.marshal (Bag.withCursor b c)

/-- Parses a concatenation of encoded page states; `fuel`-structured
(call with `fuel ≥ cs.length`) so that concrete tokens evaluate inside
the kernel.  Fails on any input `marshalChars` cannot produce. -/
def parseStatesAux (fuel : Nat) (cs : List Char) : Option (List PageState) :=
  match fuel, cs with
  | _, [] => some []
  | 0, _ => none
  | fuel + 1, cs =>
    match parseStr cs with
    | none => none
    | some (rt, cs1) =>
      match parseStr cs1 with
      | none => none
      | some (rid, cs2) =>
        match parseStr cs2 with
        | none => none
        | some (tok, cs3) => (parseStatesAux fuel cs3).map (⟨rt, rid, tok⟩ :: ·)

/-- Deserializes a cursor-stack token (baton-sdk `Bag.Unmarshal`): the
empty string yields the empty stack; any string that is not a serialized
stack yields a malformed-cursor error. -/
def unmarshalBag (token : String) : Except String Bag :=
  match parseStatesAux token.data.length token.data with
  | some states => .ok states
  | none => .error "malformed cursor"

/-- Resource-id scope of a list call (`v2.ResourceId`). -/
structure ResourceId where
  resourceType : String
  resource : String

/-- Embedding of `parsePageToken` (connector revision embedded in
`pkg/connector/permissions_test.go`): deserialize the bag, push a fresh
position for the requested scope only when the decoded stack is empty,
and return the bag with the active position's provider cursor. -/
def parsePageToken (i : String) (resourceID : ResourceId) : Except String (Bag × String) :=
  match unmarshalBag i with
  | .error e => .error e
  | .ok b =>
    match Bag.current b with
    | none =>
      .ok (Bag.push b ⟨resourceID.resourceType, resourceID.resource, ""⟩,
        Bag.pageToken (Bag.push b ⟨resourceID.resourceType, resourceID.resource, ""⟩))
    | some _ => .ok (b, Bag.pageToken b)

/-- Normalized user-status value (`v2.UserTrait_Status_Status`). -/
inductive UserStatus where
  | enabled
  | disabled
  | unspecified
deriving DecidableEq

/-- Embedding of the status switch of `parseIntoUserResource`
(`pkg/connector/users.go`), as the sequential equality tests of the Go
`switch`. -/
def userStatusOf (s : String) : UserStatus :=
  if s = "Active" then .enabled
  else if s = "Disabled" ∨ s = "Closed" ∨ s = "ActivationRequired" ∨ s = "ActivationSent" then
    .disabled
  else .unspecified

/-- Embedding of `getUserStatus` (`pkg/connector/permissions.go`): the
status helper used when the permission builder composes user resources;
it lower-cases and recognizes a different status vocabulary. -/
def getUserStatus (status : String) : UserStatus :=
  if goToLower status = "active" then .enabled
  else if goToLower status = "inactive" ∨ goToLower status = "deactivated" then .disabled
  else .unspecified

/-- Provider user list record (`client.User`). -/
structure User where
  userId : String
  userName : String
  email : String
  userStatus : String
  isAdmin : String
  permission : String

/-- Normalized user resource, restricted to the fields the claims
inspect (`resource.NewUserResource` output: display name, id, status
trait). -/
structure Resource where
  displayName : String
  id : String
  status : UserStatus

/-- Embedding of `parseIntoUserResource` (`pkg/connector/users.go`),
dropping the profile map and login option (opaque to every claim);
`resource.NewUserResource` errors are plumbing and are not modelled. -/
def parseIntoUserResource (user : User) : Resource :=
  ⟨user.userName, user.userId, userStatusOf user.userStatus⟩

/-- Embedding of `userBuilder.List` (`pkg/connector/users.go`) with the
external page fetch abstracted: `fetchedUsers` and `nextPageToken` stand
for the result of `client.GetUsers` on this page.  Decode the incoming
token, convert the fetched users, and emit a next token only when the
provider reported one. -/
def userBuilderList (pTokenStr : String) (scope : ResourceId)
    (fetchedUsers : List User) (nextPageToken : String) :
    Except String (List Resource × String) :=
  match parsePageToken pTokenStr scope with
  | .error e => .error e
  | .ok (bag, _) =>
    .ok (fetchedUsers.map parseIntoUserResource,
      if nextPageToken ≠ "" then Bag.nextToken bag nextPageToken else "")

/-- Flat numeric page cursor (the `pageToken` struct of `pkg/client`;
its declaration is not among the provided sources — modelled from the
spec §4.1: a minimal `\x7bstartPosition: integer\x7d` record). -/
structure pageToken where
  startPosition : Int
deriving DecidableEq

/-- Decimal rendering of an integer (`fmt` `%d`). -/
def intRepr (i : Int) : List Char :=
  if i < 0 then '-' :: natRepr i.natAbs else natRepr i.natAbs

/-- Canonical JSON text preceding the `startPosition` number. -/
def jsonHead : String :=
  "\x7b\"startPosition\":"

/-- Modelled from the spec (§4.1, §6: the flat cursor is base64 of the
canonical JSON form; base64 and `encoding/json` are external libraries):
`EncodePageToken` as the canonical, injective JSON text of the token. -/
def EncodePageToken (pt : pageToken) : String :=
  ⟨jsonHead.data ++ intRepr pt.startPosition ++ ['\x7d']⟩

/-- Parses an optionally signed decimal integer, returning the rest of
the input. -/
def parseSignedInt (cs : List Char) : Option (Int × List Char) :=
  if cs.head? = some '-' then
    if (takeDigits cs.tail).1 = [] then none
    else some (-(digitsVal (takeDigits cs.tail).1 : Int), (takeDigits cs.tail).2)
  else
    if (takeDigits cs).1 = [] then none
    else some ((digitsVal (takeDigits cs).1 : Int), (takeDigits cs).2)

/-- Consumes the expected head characters `pfx` from `cs`, failing on
the first mismatch. -/
def dropHead (pfx cs : List Char) : Option (List Char) :=
  match pfx, cs with
  | [], rest => some rest
  | p :: pfx', c :: cs' => if p = c then dropHead pfx' cs' else none
  | _ :: _, [] => none

/-- Strict parser for the canonical flat-cursor text: the exact JSON
head, a signed integer, and a closing brace. -/
def decodePageTokenBody (token : String) : Option pageToken :=
  match dropHead jsonHead.data token.data with
  | none => none
  | some rest =>
    match parseSignedInt rest with
    | none => none
    | some (i, r) => if r = ['\x7d'] then some ⟨i⟩ else none

/-- Embedding of `DecodePageToken` (`pkg/client/helper.go`): the empty
token denotes the first page (`startPosition = 0`); a non-empty token
that is not a serialized flat cursor is a malformed-cursor error. -/
def DecodePageToken (token : String) : Except String pageToken :=
  if token = "" then .ok ⟨0⟩
  else
    match decodePageTokenBody token with
    | some pt => .ok pt
    | none => .error "malformed page token"

/-- Provider pagination block (`client.Page` in `pkg/client/models.go`);
Go `int` fields are modelled as `Int`. -/
structure Page where
  resultSetSize : Int
  totalSetSize : Int
  startPosition : Int
  endPosition : Int

/-- Embedding of `GetNextToken` (`pkg/client/helper.go`): emit a token
for start offset `endPosition + 1` iff `endPosition < totalSetSize`,
otherwise the empty string. -/
def GetNextToken (responsePage : Page) : String :=
  if responsePage.endPosition < responsePage.totalSetSize then
    EncodePageToken ⟨responsePage.endPosition + 1⟩
  else ""

/-- Continuation decision of the aggregate `Client.GetUsers` loop
(`pkg/client/client.go`): the loop breaks when
`endPosition + 1 >= totalSetSize`, so it requests a further page iff
this returns `true`. -/
def getUsersRequestsMore (p : Page) : Bool :=
  !(decide (p.endPosition + 1 ≥ p.totalSetSize))

/-- Page-request options (`client.PageOptions`; its declaration is not
among the provided sources — fields are those read by
`PreparePagedRequest` and `userBuilder.List`). -/
structure PageOptions where
  pageSize : Int
  pageToken : String

/-- Embedding of `DefaultPageSize` (`pkg/client/helper.go`). -/
def DefaultPageSize : Int := 50

/-- Modelled net/url `Values.Set` on a query represented as an
association list: the key is bound to exactly this value. -/
def querySet (q : List (String × String)) (k v : String) : List (String × String) :=
  (k, v) :: q.filter (fun p => p.1 != k)

/-- Count parameter written by `PreparePagedRequest`: the requested page
size, or `DefaultPageSize` when the requested size is not positive. -/
def withCount (q : List (String × String)) (options : PageOptions) : List (String × String) :=
  querySet q "count"
    ⟨intRepr (if options.pageSize ≤ 0 then DefaultPageSize else options.pageSize)⟩

/-- Embedding of `PreparePagedRequest` (`pkg/client/helper.go`),
restricted to the query of the produced URL (the URL resolution itself
is net/url plumbing): decode the token into `start_position` (zero when
absent), then write `count`. -/
def preparePagedRequestQuery (baseQuery : List (String × String)) (options : PageOptions) :
    Except String (List (String × String)) :=
  if options.pageToken ≠ "" then
    match DecodePageToken options.pageToken with
    | .error e => .error ("invalid page token: " ++ e)
    | .ok pt =>
      .ok (withCount (querySet baseQuery "start_position" ⟨intRepr pt.startPosition⟩) options)
  else .ok (withCount (querySet baseQuery "start_position" "0") options)

/-- Association-list query lookup (first binding wins), used to state
which parameters a prepared request carries. -/
def lookupQ (q : List (String × String)) (k : String) : Option String :=
  match q with
  | [] => none
  | (k', v) :: rest => if k' = k then some v else lookupQ rest k

theorem firstGrantFor_id (permId : String) (mappings : List (String × String))
    (m : SettingsMap) (userId : String) (g : Grant)
    (h : firstGrantFor permId mappings m userId = some g) :
    g.entitlementId = permId := by
  induction mappings with
  | nil => simp [firstGrantFor] at h
  | cons p rest ih =>
    obtain ⟨field, pid⟩ := p
    rw [firstGrantFor] at h
    split at h
    · split at h
      · split at h
        · cases h; rfl
        · exact ih h
      · exact ih h
    · exact ih h

theorem grants_filter_not_mem (perms : List PermissionDefinition) (m : SettingsMap)
    (uid P : String) (h : ∀ d ∈ perms, d.id ≠ P) :
    ((perms.filterMap (fun perm => firstGrantFor perm.id fieldToPermissionMappings m uid)).filter
      (fun g => g.entitlementId == P)) = [] := by
  induction perms with
  | nil => rfl
  | cons d rest ih =>
    rw [List.filterMap_cons]
    cases hfg : firstGrantFor d.id fieldToPermissionMappings m uid with
    | none => exact ih (fun e he => h e (List.mem_cons_of_mem _ he))
    | some g =>
      have hid : g.entitlementId = d.id := firstGrantFor_id _ _ _ _ _ hfg
      have hbeq : (g.entitlementId == P) = false := by
        simp only [hid, beq_eq_false_iff_ne, ne_eq]
        exact h d (List.mem_cons_self _ _)
      rw [List.filter_cons_of_neg (by simp [hbeq])]
      exact ih (fun e he => h e (List.mem_cons_of_mem _ he))

theorem grants_filter_atMostOne (perms : List PermissionDefinition) (m : SettingsMap)
    (uid P : String) (h : (perms.map PermissionDefinition.id).Nodup) :
    ((perms.filterMap (fun perm => firstGrantFor perm.id fieldToPermissionMappings m uid)).filter
      (fun g => g.entitlementId == P)).length ≤ 1 := by
  induction perms with
  | nil => simp
  | cons d rest ih =>
    rw [List.map_cons, List.nodup_cons] at h
    obtain ⟨hd, hrest⟩ := h
    rw [List.filterMap_cons]
    cases hfg : firstGrantFor d.id fieldToPermissionMappings m uid with
    | none => exact ih hrest
    | some g =>
      have hid : g.entitlementId = d.id := firstGrantFor_id _ _ _ _ _ hfg
      by_cases hP : d.id = P
      · subst hP
        rw [List.filter_cons_of_pos (by simp [hid])]
        have hrest0 :
            ((rest.filterMap
                (fun perm => firstGrantFor perm.id fieldToPermissionMappings m uid)).filter
              (fun g => g.entitlementId == d.id)) = [] :=
          grants_filter_not_mem rest m uid d.id
            (fun e he heq => hd (heq ▸ List.mem_map_of_mem PermissionDefinition.id he))
        rw [hrest0]
        simp
      · rw [List.filter_cons_of_neg (by simp [hid, hP])]
        exact ih hrest

/-- Claim C1: `checkPermissionValue` accepts exactly the strings whose
lower-cased form is `"true"`, `"admin"` or `"share"` (with that string
as access level) and the boolean `true` (access level `"true"`); the
boolean `false` is rejected with access level `"false"`, and every value
of any other type — in particular the number `1` and `null` — is
rejected with access level `""`. -/
theorem C1_checkPermissionValue_exact :
    (∀ v : JValue, checkPermissionValue v = (specAccepts v, specAccessLevel v))
  ∧ checkPermissionValue (.num 1) = (false, "")
  ∧ checkPermissionValue .null = (false, "")
  ∧ checkPermissionValue (.bool false) = (false, "false")
  ∧ checkPermissionValue (.bool true) = (true, "true") := by
  refine ⟨?_, rfl, rfl, rfl, rfl⟩
  intro v
  cases v with
  | str s =>
    simp [checkPermissionValue, specAccepts, specAccessLevel, validPermissionValues,
      List.contains, Bool.or_assoc]
  | bool b => cases b <;> rfl
  | num x => rfl
  | null => rfl
  | obj fields => rfl
  | arr elems => rfl

/-- Claim C2 as stated is violated by `createUserGrants` (the per-user
derivation used by `userBuilder.Grants` and the `part_009` revision of
the batch): the settings `\x7b"isAdmin": "true", "adminOnly": "true"\x7d`
yield two grants for permission id `adminOnly`, not one. -/
theorem C2_counterexample_two_grants :
    createUserGrants aliasUser =
      .ok [⟨"adminOnly", "u1", "true"⟩, ⟨"adminOnly", "u1", "true"⟩]
  ∧ (([⟨"adminOnly", "u1", "true"⟩, ⟨"adminOnly", "u1", "true"⟩] : List Grant).filter
      (fun g => g.entitlementId == "adminOnly")).length = 2 :=
  ⟨rfl, rfl⟩

/-- Claim C2 (amended): the catalog-driven derivation
`processUserPermissions` of `pkg/connector/permissions.go` emits at most
one grant per permission id (first satisfied field mapping wins), and on
the `\x7b"isAdmin": "true", "adminOnly": "true"\x7d` example emits exactly
one grant for `adminOnly`; the alias-table derivation `createUserGrants`
emits one grant per satisfied field, so the same example yields two. -/
theorem C2_amended_at_most_one :
    (∀ (m : SettingsMap) (uid P : String),
        ((processPermissionLoop m uid).filter (fun g => g.entitlementId == P)).length ≤ 1)
  ∧ processUserPermissions aliasUser = .ok [⟨"adminOnly", "u1", "true"⟩] := by
  constructor
  · intro m uid P
    exact grants_filter_atMostOne _ _ _ _ (by decide)
  · rfl

/-- Claim C3 as stated is violated: when the first user's settings fail
to normalize, `permissionBuilder.Grants` returns the error and the
remaining users' grants are not derived, even though the second user's
derivation alone would succeed with a grant. -/
theorem C3_counterexample_batch_aborts :
    permissionGrants [badUser, aliasUser] = .error "failed to marshal user settings"
  ∧ processUserPermissions aliasUser = .ok [⟨"adminOnly", "u1", "true"⟩] :=
  ⟨rfl, rfl⟩

/-- Claim C3 (amended): a settings-normalization failure is not isolated
to the failing user — the batch loop of `permissionBuilder.Grants`
returns that user's error and derives no grants for any remaining user
(the source's documented current behavior). -/
theorem C3_amended_abort_propagates (pre post : List UserDetail) (u : UserDetail) (e : String)
    (hpre : ∀ v ∈ pre, ∃ gs, processUserPermissions v = .ok gs)
    (hu : processUserPermissions u = .error e) :
    permissionGrants (pre ++ u :: post) = .error e := by
  induction pre with
  | nil => simp [permissionGrants, hu]
  | cons v vs ih =>
    obtain ⟨gs, hv⟩ := hpre v (List.mem_cons_self _ _)
    have hrec := ih (fun w hw => hpre w (List.mem_cons_of_mem _ hw))
    simp only [List.cons_append, permissionGrants, hv, List.append_eq, hrec]

theorem C3_amended_abort_propagates_witness :
    permissionGrants [aliasUser, badUser] = .error "failed to marshal user settings" :=
  C3_amended_abort_propagates [aliasUser] [] badUser "failed to marshal user settings"
    (fun v hv => by
      rw [List.mem_singleton] at hv
      exact ⟨[⟨"adminOnly", "u1", "true"⟩], hv ▸ rfl⟩)
    rfl

theorem digitChar_toNat (d : Nat) (h : d < 10) : (digitChar d).toNat = 48 + d := by
  interval_cases d <;> rfl

theorem digitChar_isDigit (d : Nat) (h : d < 10) : (digitChar d).isDigit = true := by
  interval_cases d <;> rfl

theorem digitVal_digitChar (d : Nat) (h : d < 10) : digitVal (digitChar d) = d := by
  rw [digitVal, digitChar_toNat d h]
  omega

theorem natChars_isDigit (fuel : Nat) :
    ∀ n, n ≤ fuel → ∀ c ∈ natChars fuel n, c.isDigit = true := by
  induction fuel with
  | zero =>
    intro n hn c hc
    interval_cases n
    simp [natChars] at hc
  | succ f ih =>
    intro n hn c hc
    match n with
    | 0 => simp [natChars] at hc
    | m + 1 =>
      rw [natChars] at hc
      rcases List.mem_append.mp hc with h1 | h2
      · exact ih ((m + 1) / 10) (by omega) c h1
      · rw [List.mem_singleton] at h2
        subst h2
        exact digitChar_isDigit _ (Nat.mod_lt _ (by omega))
      · exact Nat.succ_ne_zero m

theorem digitsVal_natChars (fuel : Nat) :
    ∀ n, n ≤ fuel → digitsVal (natChars fuel n) = n := by
  induction fuel with
  | zero =>
    intro n hn
    interval_cases n
    rfl
  | succ f ih =>
    intro n hn
    match n with
    | 0 => rfl
    | m + 1 =>
      rw [natChars, digitsVal, List.foldl_append]
      have hdiv : digitsVal (natChars f ((m + 1) / 10)) = (m + 1) / 10 :=
        ih ((m + 1) / 10) (by omega)
      rw [digitsVal] at hdiv
      rw [hdiv, List.foldl_cons, List.foldl_nil,
        digitVal_digitChar _ (Nat.mod_lt _ (by omega))]
      omega
      exact Nat.succ_ne_zero m

theorem natRepr_isDigit (n : Nat) : ∀ c ∈ natRepr n, c.isDigit = true := by
  intro c hc
  rw [natRepr] at hc
  split at hc
  · rw [List.mem_singleton] at hc
    subst hc
    rfl
  · exact natChars_isDigit n n (le_refl n) c hc

theorem natRepr_ne_nil (n : Nat) : natRepr n ≠ [] := by
  rw [natRepr]
  split
  · simp
  · rename_i hn
    match h : natChars n n with
    | [] =>
      have := digitsVal_natChars n n (le_refl n)
      rw [h] at this
      simp [digitsVal] at this
      omega
    | c :: rest => simp

theorem digitsVal_natRepr (n : Nat) : digitsVal (natRepr n) = n := by
  rw [natRepr]
  split
  · rename_i h
    subst h
    rfl
  · exact digitsVal_natChars n n (le_refl n)

theorem takeDigits_eq_append (cs : List Char) :
    (takeDigits cs).1 ++ (takeDigits cs).2 = cs := by
  induction cs with
  | nil => rfl
  | cons c rest ih =>
    rw [takeDigits]
    split
    · simpa using ih
    · simp

theorem takeDigits_snd_length (cs : List Char) :
    (takeDigits cs).2.length ≤ cs.length := by
  conv_rhs => rw [← takeDigits_eq_append cs]
  rw [List.length_append]
  omega

theorem takeDigits_append (ds rest : List Char)
    (hds : ∀ c ∈ ds, c.isDigit = true)
    (hrest : ∀ c, rest.head? = some c → c.isDigit = false) :
    takeDigits (ds ++ rest) = (ds, rest) := by
  induction ds with
  | nil =>
    match rest with
    | [] => rfl
    | c :: rest' =>
      rw [List.nil_append, takeDigits]
      rw [hrest c rfl]
      simp
  | cons d ds' ih =>
    rw [List.cons_append, takeDigits]
    rw [hds d (List.mem_cons_self _ _)]
    simp only [if_true]
    rw [ih (fun c hc => hds c (List.mem_cons_of_mem _ hc))]

theorem parseStr_encStr (s : String) (tail : List Char) :
    parseStr (encStr s ++ tail) = some (s, tail) := by
  rw [encStr, List.append_assoc, List.cons_append]
  rw [parseStr]
  have htd : takeDigits (natRepr s.data.length ++ ':' :: (s.data ++ tail)) =
      (natRepr s.data.length, ':' :: (s.data ++ tail)) :=
    takeDigits_append _ _ (natRepr_isDigit _)
      (fun c hc => by
        rw [List.head?_cons, Option.some_inj] at hc
        subst hc
        rfl)
  rw [htd]
  simp only [natRepr_ne_nil s.data.length, if_false]
  rw [digitsVal_natRepr]
  have hlen : s.data.length ≤ (s.data ++ tail).length := by
    rw [List.length_append]
    omega
  rw [if_pos hlen]
  rw [List.take_left, List.drop_left]

theorem parseStr_shrinks (cs : List Char) (s : String) (rest : List Char)
    (h : parseStr cs = some (s, rest)) : rest.length < cs.length := by
  rw [parseStr] at h
  split at h
  · exact absurd h (by simp)
  · rename_i hne
    split at h
    · rename_i rest' heq
      split at h
      · rename_i hle
        rw [Option.some_inj, Prod.mk.injEq] at h
        obtain ⟨-, h2⟩ := h
        subst h2
        have h3 : (takeDigits cs).1 ++ (takeDigits cs).2 = cs := takeDigits_eq_append cs
        have h4 : (takeDigits cs).1.length ≠ 0 := by
          intro h0
          exact hne (List.eq_nil_of_length_eq_zero h0)
        have h5 : cs.length = (takeDigits cs).1.length + (takeDigits cs).2.length := by
          conv_lhs => rw [← h3]
          rw [List.length_append]
        rw [heq] at h5
        simp only [List.length_cons] at h5
        have h6 : (rest'.drop (digitsVal (takeDigits cs).1)).length ≤ rest'.length := by
          rw [List.length_drop]
          omega
        omega
      · exact absurd h (by simp)
    · exact absurd h (by simp)

theorem encStr_length_pos (s : String) : 1 ≤ (encStr s).length := by
  rw [encStr, List.length_append]
  simp only [List.length_cons]
  omega

theorem marshalChars_cons_length (s : PageState) (rest : List PageState) :
    1 ≤ (marshalChars (s :: rest)).length := by
  rw [marshalChars]
  simp only [List.length_append]
  have := encStr_length_pos s.resourceTypeId
  omega

theorem parseStatesAux_of_ne_nil (fuel : Nat) (cs : List Char) (h : cs ≠ []) :
    parseStatesAux (fuel + 1) cs =
      match parseStr cs with
      | none => none
      | some (rt, cs1) =>
        match parseStr cs1 with
        | none => none
        | some (rid, cs2) =>
          match parseStr cs2 with
          | none => none
          | some (tok, cs3) => (parseStatesAux fuel cs3).map (⟨rt, rid, tok⟩ :: ·) := by
  match cs with
  | [] => exact absurd rfl h
  | c :: cs' => rfl

theorem parseStatesAux_marshal (b : List PageState) :
    ∀ fuel, (marshalChars b).length ≤ fuel →
      parseStatesAux fuel (marshalChars b) = some b := by
  induction b with
  | nil =>
    intro fuel _
    cases fuel <;> rfl
  | cons s rest ih =>
    intro fuel hfuel
    have hlen := marshalChars_cons_length s rest
    match fuel with
    | 0 => omega
    | f + 1 =>
      have hne : marshalChars (s :: rest) ≠ [] := by
        intro h0
        rw [h0] at hlen
        simp at hlen
      rw [parseStatesAux_of_ne_nil f _ hne]
      have hsplit : marshalChars (s :: rest) =
          encStr s.resourceTypeId ++
            (encStr s.resourceId ++ (encStr s.token ++ marshalChars rest)) := by
        rw [marshalChars, List.append_assoc, List.append_assoc]
      rw [hsplit]
      simp only [parseStr_encStr]
      have hrest : (marshalChars rest).length ≤ f := by
        rw [hsplit, List.length_append, List.length_append, List.length_append] at hfuel
        have := encStr_length_pos s.resourceTypeId
        omega
      rw [ih f hrest]
      rfl

theorem unmarshalBag_marshal (b : Bag) : unmarshalBag (Bag.marshal b) = .ok b := by
  rw [Bag.marshal, unmarshalBag]
  have : (String.mk (marshalChars b)).data = marshalChars b := rfl
  rw [this, parseStatesAux_marshal b _ (le_refl _)]

theorem dropHead_append (pfx rest : List Char) : dropHead pfx (pfx ++ rest) = some rest := by
  induction pfx with
  | nil => rfl
  | cons p pfx' ih => simp [dropHead, ih]

theorem parseSignedInt_intRepr (i : Int) (rest : List Char)
    (hrest : ∀ c, rest.head? = some c → c.isDigit = false) :
    parseSignedInt (intRepr i ++ rest) = some (i, rest) := by
  rw [intRepr]
  by_cases hi : i < 0
  · rw [if_pos hi, List.cons_append, parseSignedInt]
    rw [List.head?_cons, if_pos rfl]
    have htail : ('-' :: (natRepr i.natAbs ++ rest)).tail = natRepr i.natAbs ++ rest := rfl
    rw [htail, takeDigits_append _ _ (natRepr_isDigit _) hrest]
    rw [if_neg (natRepr_ne_nil _), digitsVal_natRepr]
    have habs : ((i.natAbs : Int)) = -i := Int.ofNat_natAbs_of_nonpos (le_of_lt hi)
    rw [habs, neg_neg]
  · rw [if_neg hi, parseSignedInt]
    have hhead : ∀ c, (natRepr i.natAbs ++ rest).head? = some c → c.isDigit = true := by
      intro c hc
      match hnr : natRepr i.natAbs with
      | [] => exact absurd hnr (natRepr_ne_nil _)
      | d :: ds =>
        rw [hnr, List.cons_append, List.head?_cons, Option.some_inj] at hc
        rw [← hc]
        exact natRepr_isDigit _ d (by rw [hnr]; exact List.mem_cons_self _ _)
    have hne : ¬ (natRepr i.natAbs ++ rest).head? = some '-' := by
      intro hc
      have := hhead '-' hc
      simp [Char.isDigit] at this
    rw [if_neg hne, takeDigits_append _ _ (natRepr_isDigit _) hrest]
    rw [if_neg (natRepr_ne_nil _), digitsVal_natRepr]
    rw [Int.natAbs_of_nonneg (not_lt.mp hi)]

theorem EncodePageToken_ne_empty (pt : pageToken) : EncodePageToken pt ≠ "" := by
  rw [EncodePageToken]
  intro h
  have : (jsonHead.data ++ intRepr pt.startPosition ++ ['\x7d']) = ([] : List Char) :=
    congrArg String.data h
  simp [jsonHead] at this

theorem decode_encode_pageToken (pt : pageToken) :
    DecodePageToken (EncodePageToken pt) = .ok pt := by
  have hbrace : ∀ c, (['\x7d'] : List Char).head? = some c → c.isDigit = false := by
    intro c hc
    rw [List.head?_cons, Option.some_inj] at hc
    rw [← hc]
    rfl
  rw [DecodePageToken, if_neg (EncodePageToken_ne_empty pt)]
  rw [decodePageTokenBody, EncodePageToken]
  have hdata : (String.mk (jsonHead.data ++ intRepr pt.startPosition ++ ['\x7d'])).data =
      jsonHead.data ++ (intRepr pt.startPosition ++ ['\x7d']) := by
    rw [← List.append_assoc]
  rw [hdata, dropHead_append]
  simp only [parseSignedInt_intRepr _ _ hbrace]
  rfl

/-- Claim C4: in flat pagination `GetNextToken` emits a token iff
`endPosition < totalSetSize`, and the emitted token encodes start
position exactly `endPosition + 1`; in particular `endPosition = 49`
with `totalSetSize = 120` encodes `50`, and a page with
`startPosition = 0, totalSetSize = 0` yields no token. -/
theorem C4_flat_next_token (page : Page) :
    (¬ GetNextToken page = "" ↔ page.endPosition < page.totalSetSize)
  ∧ (page.endPosition < page.totalSetSize →
      DecodePageToken (GetNextToken page) = .ok ⟨page.endPosition + 1⟩)
  ∧ DecodePageToken (GetNextToken ⟨120, 120, 0, 49⟩) = .ok ⟨50⟩
  ∧ GetNextToken ⟨0, 0, 0, 0⟩ = "" := by
  refine ⟨?_, ?_, ?_, rfl⟩
  · constructor
    · intro hne
      by_contra hlt
      rw [GetNextToken, if_neg hlt] at hne
      exact hne rfl
    · intro hlt
      rw [GetNextToken, if_pos hlt]
      exact EncodePageToken_ne_empty _
  · intro hlt
    rw [GetNextToken, if_pos hlt]
    exact decode_encode_pageToken _
  · have h : (49 : Int) < 120 := by decide
    rw [GetNextToken, if_pos h]
    exact decode_encode_pageToken _

theorem C4_flat_next_token_witness :
    (¬ GetNextToken ⟨120, 120, 0, 49⟩ = "" ↔ (49 : Int) < 120)
  ∧ DecodePageToken (GetNextToken ⟨120, 120, 0, 49⟩) = .ok ⟨50⟩ := by
  obtain ⟨h1, h2, h3, -⟩ := C4_flat_next_token ⟨120, 120, 0, 49⟩
  exact ⟨h1, h2 (by decide)⟩

/-- Claim C5 fails as stated: for `endPosition = 119`,
`totalSetSize = 120`, `GetNextToken` does produce a further token
(since `119 < 120`), encoding start position `120`. -/
theorem C5_counterexample_token_emitted :
    ¬ GetNextToken ⟨120, 120, 0, 119⟩ = ""
  ∧ DecodePageToken (GetNextToken ⟨120, 120, 0, 119⟩) = .ok ⟨120⟩ := by
  constructor
  · rw [GetNextToken, if_pos (by decide : (119 : Int) < 120)]
    exact EncodePageToken_ne_empty _
  · rw [GetNextToken, if_pos (by decide : (119 : Int) < 120)]
    exact decode_encode_pageToken _

/-- Claim C5 (amended): on `endPosition = 119, totalSetSize = 120` the
flat `GetNextToken` emits one more token (start position `120`), while
the aggregate `Client.GetUsers` loop — whose continuation rule is
`endPosition + 1 < totalSetSize` — stops after such a page. -/
theorem C5_amended_boundary :
    GetNextToken ⟨120, 120, 0, 119⟩ = EncodePageToken ⟨120⟩
  ∧ getUsersRequestsMore ⟨120, 120, 0, 119⟩ = false := by
  constructor
  · rw [GetNextToken, if_pos (by decide : (119 : Int) < 120)]
    norm_num
  · rfl

/-- Claim C6: a non-empty pagination token that fails to deserialize
yields a malformed-cursor error from the decoder (`parsePageToken` for
stacked tokens, `DecodePageToken` for flat ones), and the error is
surfaced by the enclosing operation (`userBuilder.List`,
`PreparePagedRequest`) — processing of that page aborts and the error
is never swallowed. -/
theorem C6_malformed_cursor_surfaced :
    (∀ (token : String) (rid : ResourceId), token ≠ "" →
        unmarshalBag token = .error "malformed cursor" →
          parsePageToken token rid = .error "malformed cursor"
        ∧ ∀ (us : List User) (npt : String),
            userBuilderList token rid us npt = .error "malformed cursor")
  ∧ (∀ t : String, t ≠ "" → decodePageTokenBody t = none →
        DecodePageToken t = .error "malformed page token"
        ∧ ∀ (q : List (String × String)) (size : Int),
            preparePagedRequestQuery q ⟨size, t⟩ =
              .error ("invalid page token: " ++ "malformed page token")) := by
  constructor
  · intro token rid _ hbad
    have hp : parsePageToken token rid = .error "malformed cursor" := by
      rw [parsePageToken, hbad]
    refine ⟨hp, fun us npt => ?_⟩
    rw [userBuilderList, hp]
  · intro t ht hbody
    have hd : DecodePageToken t = .error "malformed page token" := by
      rw [DecodePageToken, if_neg ht, hbody]
    refine ⟨hd, fun q size => ?_⟩
    rw [preparePagedRequestQuery, if_pos (by exact ht), hd]

theorem C6_malformed_cursor_surfaced_witness :
    parsePageToken "!" ⟨"user", ""⟩ = .error "malformed cursor"
  ∧ userBuilderList "!" ⟨"user", ""⟩ [] "" = .error "malformed cursor"
  ∧ DecodePageToken "!" = .error "malformed page token"
  ∧ preparePagedRequestQuery [] ⟨50, "!"⟩ =
      .error ("invalid page token: " ++ "malformed page token") := by
  have h1 := C6_malformed_cursor_surfaced.1 "!" ⟨"user", ""⟩ (by decide) (by rfl)
  have h2 := C6_malformed_cursor_surfaced.2 "!" (by decide) (by rfl)
  exact ⟨h1.1, h1.2 [] "", h2.1, h2.2 [] 50⟩

/-- Claim C7: advancing the top of a non-empty cursor stack to a
provider cursor `c ≠ ""` (`Bag.NextToken`) and decoding the serialized
result reproduces the stack with its top entry's provider cursor equal
to `c`; serialization is a pure, canonical function of the logical
stack, and decoding inverts it on every stack — so identical logical
states always re-encode to the identical token string. -/
theorem C7_cursor_roundtrip :
    (∀ (s : PageState) (rest : List PageState) (c : String), c ≠ "" →
        unmarshalBag (Bag.nextToken (s :: rest) c) =
          .ok (⟨s.resourceTypeId, s.resourceId, c⟩ :: rest))
  ∧ (∀ b : Bag, unmarshalBag (Bag.marshal b) = .ok b) := by
  constructor
  · intro s rest c _
    rw [Bag.nextToken]
    have hw : Bag.withCursor (s :: rest) c = ⟨s.resourceTypeId, s.resourceId, c⟩ :: rest := rfl
    rw [hw]
    exact unmarshalBag_marshal _
  · exact unmarshalBag_marshal

theorem C7_cursor_roundtrip_witness :
    unmarshalBag (Bag.nextToken [⟨"user", "", "p1"⟩] "p2") = .ok [⟨"user", "", "p2"⟩] :=
  C7_cursor_roundtrip.1 ⟨"user", "", "p1"⟩ [] "p2" (by decide)

/-- Claim C8 fails as stated: a decoded stack whose top entry's scope
(here `group`/`g1`) differs from the requested scope (`user`/`""`) is
left as the active position — `parsePageToken` pushes no entry for the
requested scope and returns the mismatched entry's provider cursor. -/
theorem C8_counterexample_no_push_on_mismatch :
    parsePageToken (Bag.marshal [⟨"group", "g1", "cur"⟩]) ⟨"user", ""⟩ =
      .ok ([⟨"group", "g1", "cur"⟩], "cur")
  ∧ ¬ parsePageToken (Bag.marshal [⟨"group", "g1", "cur"⟩]) ⟨"user", ""⟩ =
      .ok ([⟨"user", "", ""⟩, ⟨"group", "g1", "cur"⟩], "") := by
  have hfirst : parsePageToken (Bag.marshal [⟨"group", "g1", "cur"⟩]) ⟨"user", ""⟩ =
      .ok ([⟨"group", "g1", "cur"⟩], "cur") := by
    rw [parsePageToken, unmarshalBag_marshal]
    rfl
  refine ⟨hfirst, ?_⟩
  intro h
  rw [hfirst] at h
  have h2 : "cur" = "" :=
    congrArg (fun e => match e with | Except.ok p => p.2 | Except.error _ => "x") h
  exact absurd h2 (by decide)

/-- Claim C8 (amended): `parsePageToken` pushes a fresh entry for the
requested scope only when the decoded stack is empty; a non-empty
decoded stack keeps its top entry as the active position — matching the
requested scope or not — and its provider cursor is returned. -/
theorem C8_amended_push_only_when_empty :
    (∀ (token : String) (scope : ResourceId) (s : PageState) (rest : List PageState),
        unmarshalBag token = .ok (s :: rest) →
        parsePageToken token scope = .ok (s :: rest, s.token))
  ∧ (∀ (token : String) (scope : ResourceId),
        unmarshalBag token = .ok [] →
        parsePageToken token scope =
          .ok ([⟨scope.resourceType, scope.resource, ""⟩], "")) := by
  constructor
  · intro token scope s rest hok
    rw [parsePageToken, hok]
    rfl
  · intro token scope hok
    rw [parsePageToken, hok]
    rfl

theorem C8_amended_push_only_when_empty_witness :
    parsePageToken (Bag.marshal [⟨"group", "g1", "x"⟩]) ⟨"user", ""⟩ =
      .ok ([⟨"group", "g1", "x"⟩], "x")
  ∧ parsePageToken "" ⟨"user", ""⟩ = .ok ([⟨"user", "", ""⟩], "") :=
  ⟨C8_amended_push_only_when_empty.1 _ ⟨"user", ""⟩ ⟨"group", "g1", "x"⟩ []
      (unmarshalBag_marshal [⟨"group", "g1", "x"⟩]),
   C8_amended_push_only_when_empty.2 "" ⟨"user", ""⟩ (by rfl)⟩

/-- Claim C9 fails as stated: the cited status helper `getUserStatus`
(`pkg/connector/permissions.go`) maps `"Disabled"` to unspecified, not
to disabled — it recognizes only the lower-cased vocabulary `active`,
`inactive`, `deactivated`. -/
theorem C9_counterexample_getUserStatus :
    getUserStatus "Disabled" = UserStatus.unspecified
  ∧ ¬ getUserStatus "Disabled" = UserStatus.disabled := by
  exact ⟨by decide, by decide⟩

/-- Claim C9 (amended): both status translations are total functions
that never fail; the `parseIntoUserResource` switch maps exactly
`"Active"` to enabled and `"Disabled"`, `"Closed"`,
`"ActivationRequired"`, `"ActivationSent"` to disabled, everything else
to unspecified; the separate `getUserStatus` helper instead maps
lower-cased `active` to enabled and `inactive`/`deactivated` to
disabled, everything else — including `"Disabled"` — to unspecified. -/
theorem C9_amended_status_translation :
    (∀ s : String,
        (userStatusOf s = UserStatus.enabled ↔ s = "Active")
      ∧ (userStatusOf s = UserStatus.disabled ↔
          (s = "Disabled" ∨ s = "Closed" ∨ s = "ActivationRequired" ∨ s = "ActivationSent")))
  ∧ (∀ s : String,
        (getUserStatus s = UserStatus.enabled ↔ goToLower s = "active")
      ∧ (getUserStatus s = UserStatus.disabled ↔
          (goToLower s = "inactive" ∨ goToLower s = "deactivated")))
  ∧ getUserStatus "Disabled" = UserStatus.unspecified := by
  refine ⟨?_, ?_, by decide⟩
  · intro s
    rw [userStatusOf]
    split_ifs with h1 h2 <;> simp_all
  · intro s
    rw [getUserStatus]
    split_ifs with h1 h2 <;> simp_all

theorem C9_amended_status_translation_witness :
    userStatusOf "Disabled" = UserStatus.disabled
  ∧ getUserStatus "Disabled" = UserStatus.unspecified :=
  ⟨((C9_amended_status_translation.1 "Disabled").2).mpr (Or.inl rfl),
   C9_amended_status_translation.2.2⟩

theorem lookupQ_withCount_count (q : List (String × String)) (options : PageOptions) :
    lookupQ (withCount q options) "count" =
      some ⟨intRepr (if options.pageSize ≤ 0 then DefaultPageSize else options.pageSize)⟩ := by
  rw [withCount, querySet, lookupQ, if_pos rfl]

theorem lookupQ_withCount_sp (base : List (String × String)) (options : PageOptions)
    (v : String) :
    lookupQ (withCount (querySet base "start_position" v) options) "start_position" = some v := by
  rw [withCount, querySet, querySet, lookupQ, if_neg (by decide)]
  rw [List.filter_cons_of_pos (by simp)]
  rw [lookupQ, if_pos rfl]

/-- Claim C10: whenever the page token is empty or decodes successfully,
`PreparePagedRequest` produces a query that carries both
`start_position` (zero for an absent token, the token's decoded start
position otherwise) and `count` (the requested page size, or the
default page size 50 whenever the requested size is not positive). -/
theorem C10_prepare_paged_request (baseQuery : List (String × String))
    (options : PageOptions) (pt : pageToken)
    (h : options.pageToken = "" ∨ DecodePageToken options.pageToken = .ok pt) :
    (preparePagedRequestQuery baseQuery options).map
        (fun q => (lookupQ q "start_position", lookupQ q "count")) =
      .ok (some (if options.pageToken = "" then "0" else ⟨intRepr pt.startPosition⟩),
        some ⟨intRepr (if options.pageSize ≤ 0 then DefaultPageSize else options.pageSize)⟩)
  ∧ DefaultPageSize = 50 := by
  refine ⟨?_, rfl⟩
  by_cases ht : options.pageToken = ""
  · rw [preparePagedRequestQuery, if_neg (by simp [ht])]
    simp only [Except.map, if_pos ht]
    rw [lookupQ_withCount_sp, lookupQ_withCount_count]
  · rcases h with h | h
    · exact absurd h ht
    · rw [preparePagedRequestQuery, if_pos ht, h]
      simp only [Except.map, if_neg ht]
      rw [lookupQ_withCount_sp, lookupQ_withCount_count]

theorem C10_prepare_paged_request_witness :
    (preparePagedRequestQuery [] ⟨0, ""⟩).map
        (fun q => (lookupQ q "start_position", lookupQ q "count")) =
      .ok (some "0", some ⟨intRepr 50⟩)
  ∧ DefaultPageSize = 50 := by
  have h := C10_prepare_paged_request [] ⟨0, ""⟩ ⟨0⟩ (Or.inl rfl)
  simpa using h

end DocuSign
